import Mathlib

/-!
Verification development for the flow-augmented variational inference core of
the gradient-boosted-flows repository.  The RealNVP flow wrapper
(`models/realnvp.py`) and the loss layer (`optimization/loss.py`) are embedded
shallowly; tensors become lists of real numbers (a batch is a list of rows),
and fallible Python code returns `Except`.  The coupling-step transformation
and the base-density primitives live outside the two embedded files, so they
are modelled from the specification, with their doc comments saying so.
-/

namespace GradientBoostedFlows

noncomputable section

/-- A batched tensor: a list of per-example rows. -/
abbrev Mat := List (List ℝ)

/-- Modelled from the spec: a single coupling layer's four opaque function
blocks (`models.transformations.RealNVP` parameters, built in
`RealNVPFlow.__init__` as two blocks mapping the first-half size to the
second-half size and two mapping back).  `tA`/`sA` condition on the first
half (translation and log-scale, used when the parity flag is 0); `tB`/`sB`
condition on the second half (used when the parity flag is 1). -/
structure CouplingLayer where
  tA : List ℝ → List ℝ
  sA : List ℝ → List ℝ
  tB : List ℝ → List ℝ
  sB : List ℝ → List ℝ

instance : Inhabited CouplingLayer :=
  ⟨⟨fun _ => [], fun _ => [], fun _ => [], fun _ => []⟩⟩

/-- Modelled from the spec: the forward affine coupling transform
`z_transformed = z_varying * exp(s(z_fixed)) + t(z_fixed)`, elementwise. -/
def affineFwd (z s t : List ℝ) : List ℝ :=
  List.zipWith (fun x st => x * Real.exp st.1 + st.2) z (s.zip t)

/-- Modelled from the spec: the inverse affine coupling transform
`z_varying = (z_transformed - t(z_fixed)) / exp(s(z_fixed))`, elementwise. -/
def affineInv (z s t : List ℝ) : List ℝ :=
  List.zipWith (fun x st => (x - st.2) / Real.exp st.1) z (s.zip t)

/-- Modelled from the spec: one RealNVP coupling step
(`models.transformations.RealNVP.forward`, absent from the embedded sources).
The latent of size `D` is split into halves of sizes `D / 2` and `D - D / 2`;
the parity flag selects which half is held fixed; the other half receives the
affine transform, and the log-determinant contribution is the sum of the
log-scales. -/
def coupleForward (D : ℕ) (L : CouplingLayer) (p : ℕ) (z : List ℝ) :
    List ℝ × ℝ :=
  let a := D / 2
  let zA := z.take a
  let zB := z.drop a
  if p % 2 = 0 then
    let s := L.sA zA
    let t := L.tA zA
    (zA ++ affineFwd zB s t, s.sum)
  else
    let s := L.sB zB
    let t := L.tB zB
    (affineFwd zA s t ++ zB, s.sum)

/-- Modelled from the spec: one inverse RealNVP coupling step
(`models.transformations.RealNVP.inverse`, absent from the embedded sources);
the log-determinant contribution is the negated sum of the log-scales. -/
def coupleInverse (D : ℕ) (L : CouplingLayer) (p : ℕ) (z : List ℝ) :
    List ℝ × ℝ :=
  let a := D / 2
  let zA := z.take a
  let zB := z.drop a
  if p % 2 = 0 then
    let s := L.sA zA
    let t := L.tA zA
    (zA ++ affineInv zB s t, -s.sum)
  else
    let s := L.sB zB
    let t := L.tB zB
    (affineInv zA s t ++ zB, -s.sum)

/-- The RealNVP generative flow model of `models/realnvp.py`: the latent size
`z_size`, the sampling batch size, and the per-step coupling parameters
(`flow_param`). -/
structure RealNVPFlow where
  z_size : ℕ
  sample_size : ℕ
  flow_param : List CouplingLayer

def RealNVPFlow.num_flows (f : RealNVPFlow) : ℕ := f.flow_param.length

/-- The loop body of `RealNVPFlow.encode`: for `k in range(num_flows)` apply
`flow_step(Z[k], [flow_param[k], k % 2])`, accumulating the log-determinant.
The enumerated parameter list carries the index `k`. -/
def encodeGo (D : ℕ) (ps : List (ℕ × CouplingLayer)) (z : List ℝ) (ldj : ℝ) :
    List ℝ × ℝ :=
  match ps with
  | [] => (z, ldj)
  | kL :: rest =>
    let r := coupleForward D kL.2 (kL.1 % 2) z
    encodeGo D rest r.1 (ldj + r.2)

/-- The flow-forward core of `RealNVPFlow.encode` on one example: the final
latent `Z[-1]` together with the accumulated `log_det_j`. -/
def RealNVPFlow.encodeZ (f : RealNVPFlow) (x : List ℝ) : List ℝ × ℝ :=
  encodeGo f.z_size f.flow_param.enum x 0

/-- The loop of `RealNVPFlow.decode`: `for k in range(num_flows, 0, -1)` apply
`flow_step.inverse(Z[k], [flow_param[k-1], k % 2])`, accumulating the
log-determinant.  The counter `k` of the source is the `Nat` being recursed
on; `params.getD (k-1)` is `flow_param[k-1]` and the parity passed is
`k % 2`. -/
def decodeRec (D : ℕ) (params : List CouplingLayer) (k : ℕ) (z : List ℝ)
    (ldj : ℝ) : List ℝ × ℝ :=
  match k with
  | 0 => (z, ldj)
  | k' + 1 =>
    let r := coupleInverse D (params.getD k' default) ((k' + 1) % 2) z
    decodeRec D params k' r.1 (ldj + r.2)

/-- The inverse pass of `RealNVPFlow.decode` on one example, exposing the
`log_det_j` that the source computes (and then discards). -/
def RealNVPFlow.decodeZ (f : RealNVPFlow) (z : List ℝ) : List ℝ × ℝ :=
  decodeRec f.z_size f.flow_param f.num_flows z 0

/-- `RealNVPFlow.decode` as returned to the caller: the source ends with
`return Z[0]`, so only the recovered latent is returned. -/
def RealNVPFlow.decode (f : RealNVPFlow) (z : List ℝ) : List ℝ :=
  (f.decodeZ z).1

/-- `RealNVPFlow.prior`: repeats the zero buffer `prior_h` (shape
`(1, 2*z_size)`) once per batch row (or `sample_size` times when no data is
given) and splits it into mean and variance halves. -/
def RealNVPFlow.prior (f : RealNVPFlow) (data : Option Mat) : Mat × Mat :=
  let n := match data with
    | some d => d.length
    | none => f.sample_size
  let h := List.replicate n (List.replicate (2 * f.z_size) (0 : ℝ))
  (h.map (fun r => r.take f.z_size), h.map (fun r => r.drop f.z_size))

/-- `RealNVPFlow.encode` at the batch level: each row goes through the flow
forward loop; the returned tuple is `(z_K, z_mu, z_var, log_det_j,
y_logits = None)` with `(z_mu, z_var)` taken from `prior`. -/
def RealNVPFlow.encode (f : RealNVPFlow) (x : Mat) :
    Mat × Mat × Mat × List ℝ × Option Unit :=
  let zs := x.map (fun row => f.encodeZ row)
  let pr := f.prior (some x)
  (zs.map Prod.fst, pr.1, pr.2, zs.map Prod.snd, none)

/-- The inverse pass as claim C2 states it: coupling layers `K-1..0` in
reverse order, layer `k` applied with the same parity flag `k % 2` it used in
the forward pass, returning both the recovered latent and the total `ldj`. -/
def decodeClaimSpec (f : RealNVPFlow) (z : List ℝ) : List ℝ × ℝ :=
  f.flow_param.enum.reverse.foldl
    (fun acc kL =>
      let r := coupleInverse f.z_size kL.2 (kL.1 % 2) acc.1
      (r.1, acc.2 + r.2))
    (z, 0)

/-- The inverse pass as the amended claim states it: coupling layers `K-1..0`
in reverse order, layer `k` applied with parity flag `(k + 1) % 2` — the
opposite of the flag `k % 2` it used in the forward pass. -/
def decodeAmendedSpec (f : RealNVPFlow) (z : List ℝ) : List ℝ × ℝ :=
  f.flow_param.enum.reverse.foldl
    (fun acc kL =>
      let r := coupleInverse f.z_size kL.2 ((kL.1 + 1) % 2) acc.1
      (r.1, acc.2 + r.2))
    (z, 0)

/-- A concrete single-layer flow on a two-dimensional latent, with constant
function blocks, used to evaluate the round-trip behaviour. -/
def exLayer : CouplingLayer where
  tA := fun _ => [1]
  sA := fun _ => [1]
  tB := fun _ => [2]
  sB := fun _ => [0]

/-- A concrete flow instance: `z_size = 2`, one coupling layer. -/
def exFlow : RealNVPFlow where
  z_size := 2
  sample_size := 1
  flow_param := [exLayer]

/-- The `(in_dim, out_dim)` pairs of the four function blocks that
`RealNVPFlow.__init__` instantiates for coupling layer `k`: when
`(k + flip_init) % 2 > 0` the roles of `z_size // 2` and
`z_size - z_size // 2` are swapped, and the layer gets two blocks mapping
`in_dim` to `out_dim` followed by two mapping `out_dim` to `in_dim`. -/
def realNVPFlowBlockDims (z_size flip_init k : ℕ) : List (ℕ × ℕ) :=
  let flipped := (k + flip_init) % 2 > 0
  let in_dim := if flipped then z_size - z_size / 2 else z_size / 2
  let out_dim := if flipped then z_size / 2 else z_size - z_size / 2
  [(in_dim, out_dim), (in_dim, out_dim), (out_dim, in_dim), (out_dim, in_dim)]

/-- The `(in_dim, out_dim)` pairs of the four function blocks that
`RealNVPVAE.__init__` instantiates for every coupling layer: all four use
`in_dim = z_size // 2` and `out_dim = z_size - z_size // 2`. -/
def realNVPVAEBlockDims (z_size : ℕ) : List (ℕ × ℕ) :=
  let in_dim := z_size / 2
  let out_dim := z_size - z_size / 2
  [(in_dim, out_dim), (in_dim, out_dim), (in_dim, out_dim), (in_dim, out_dim)]

/-- Claim C8's correctness condition on a layer's four block dimensionalities:
with half sizes `a = D // 2` and `b = D - D // 2`, the blocks conditioning on
one half map that half's size to the other's, and vice versa — two blocks
`a → b` and two blocks `b → a`, in either role order. -/
def parityBlockDimsOk (D : ℕ) (bs : List (ℕ × ℕ)) : Prop :=
  bs = [(D / 2, D - D / 2), (D / 2, D - D / 2),
        (D - D / 2, D / 2), (D - D / 2, D / 2)] ∨
  bs = [(D - D / 2, D / 2), (D - D / 2, D / 2),
        (D / 2, D - D / 2), (D / 2, D - D / 2)]

instance (D : ℕ) (bs : List (ℕ × ℕ)) : Decidable (parityBlockDimsOk D bs) :=
  inferInstanceAs (Decidable (_ ∨ _))

/-- Modelled from the spec: the numerical-stability floor of
`utils.utilities.safe_log` (a small additive floor applied before the
logarithm), and the probability-clamping margin of
`utils.distributions.log_bernoulli`. -/
def eps : ℝ := 1 / 10000000

/-- Modelled from the spec: `utils.utilities.safe_log` applies a small
additive floor before taking the logarithm, so that a zero variance still
gives a finite value. -/
def safe_log (x : ℝ) : ℝ := Real.log (x + eps)

/-- Elementwise `safe_log` over a batched tensor, as applied to `z_var`. -/
def safeLogMat (m : Mat) : Mat := m.map (fun r => r.map safe_log)

/-- Modelled from the spec: `utils.distributions.log_normal_standard` with
`dim=1` — per example, the closed-form standard-normal log-density summed
over the feature dimension. -/
def log_normal_standard_row (z : List ℝ) : ℝ :=
  (z.map (fun x => -(x ^ 2) / 2 - Real.log (2 * Real.pi) / 2)).sum

/-- Batched `log_normal_standard` with `dim=1`: one value per example. -/
def log_normal_standard (z : Mat) : List ℝ := z.map log_normal_standard_row

/-- Modelled from the spec: `utils.distributions.log_normal_diag` with
`dim=1` — per example, the diagonal-normal log-density with the given mean
and log-variance, summed over the feature dimension. -/
def log_normal_diag_row (z mean log_var : List ℝ) : ℝ :=
  ((z.zip (mean.zip log_var)).map
    (fun q => -(q.2.2) / 2 - (q.1 - q.2.1) ^ 2 / (2 * Real.exp q.2.2)
      - Real.log (2 * Real.pi) / 2)).sum

/-- Batched `log_normal_diag` with `dim=1`: one value per example. -/
def log_normal_diag (z mean log_var : Mat) : List ℝ :=
  List.zipWith (fun zr p => log_normal_diag_row zr p.1 p.2) z
    (mean.zip log_var)

/-- Modelled from the spec: the probability clamp of
`utils.distributions.log_bernoulli`, keeping `p` away from 0 and 1. -/
def clampProb (p : ℝ) : ℝ := min (max p eps) (1 - eps)

/-- Modelled from the spec: `utils.distributions.log_bernoulli` with `dim=1`
— per example, the Bernoulli log-likelihood of targets `x` under clamped
probabilities `p`, summed over the feature dimension. -/
def log_bernoulli_row (x p : List ℝ) : ℝ :=
  ((x.zip p).map
    (fun q => q.1 * Real.log (clampProb q.2)
      + (1 - q.1) * Real.log (1 - clampProb q.2))).sum

/-- Modelled from the spec: `torch.nn.BCELoss(reduction='sum')` — the binary
cross-entropy of targets `x` under probabilities `x_recon`, summed over every
dimension. -/
def bce_sum (x_recon x : Mat) : ℝ :=
  -(((x.zip x_recon).map
    (fun rows => ((rows.1.zip rows.2).map
      (fun q => q.1 * Real.log q.2 + (1 - q.1) * Real.log (1 - q.2))).sum)).sum)

/-- `binary_neg_elbo` of `optimization/loss.py`: the summed binary negative
ELBO, with each returned term divided by the batch size at the end.  Returns
`(loss, recon_loss, kl)`. -/
def binary_neg_elbo (x_recon x z_mu z_var z_0 z_k : Mat) (ldj : List ℝ)
    (beta : ℝ) : ℝ × ℝ × ℝ :=
  let recon_loss := bce_sum x_recon x
  let log_p_zk := log_normal_standard z_k
  let log_q_z0 := log_normal_diag z_0 z_mu (safeLogMat z_var)
  let summed_logs := (List.zipWith (fun a b => a - b) log_q_z0 log_p_zk).sum
  let summed_ldj := ldj.sum
  let kl := summed_logs - summed_ldj
  let loss := recon_loss + beta * kl
  let batch_size := (x.length : ℝ)
  (loss / batch_size, recon_loss / batch_size, kl / batch_size)

/-- `binary_loss_array` of `optimization/loss.py`: the per-example binary
loss, not summed over the batch dimension (the per-example `ldj` case; the
source's extra reshape branch applies only to higher-rank `ldj`). -/
def binary_loss_array (x_recon x z_mu z_var z_0 z_k : Mat) (ldj : List ℝ)
    (beta : ℝ) : List ℝ :=
  let bce := List.zipWith (fun xr rr => -log_bernoulli_row xr rr) x x_recon
  let log_p_zk := log_normal_standard z_k
  let log_q_z0 := log_normal_diag z_0 z_mu (safeLogMat z_var)
  let logs := List.zipWith (fun a b => a - b) log_q_z0 log_p_zk
  List.zipWith (fun b r => b + beta * r) bce
    (List.zipWith (fun l d => l - d) logs ldj)

/-- Python-level failures that the loss layer can raise. -/
inductive PyError where
  | valueError (msg : String)
  | typeError (msg : String)
  | unboundLocal (name : String)
deriving DecidableEq

/-- `boosted_binary_neg_elbo` of `optimization/loss.py`.  `z_g` is the new
component's latent trajectory (indexed at `[0]` and `[-1]`), `z_G`/`G_ldj`
the optional fixed-component quantities.  Returns `(loss, recon_loss,
log_G_z, log_p_zk, entropy, log_ratio)`; subscripting an absent `z_G` in the
non-first-component branch is a Python `TypeError`. -/
def boosted_binary_neg_elbo (x_recon x z_mu z_var : Mat) (z_g : List Mat)
    (g_ldj : List ℝ) (z_G : Option (List Mat)) (G_ldj : Option (List ℝ))
    (regularization_rate : ℝ) (first_component : Bool) (beta : ℝ) :
    Except PyError (ℝ × ℝ × ℝ × ℝ × ℝ × ℝ) :=
  let recon_loss := bce_sum x_recon x
  let log_p_zk := (log_normal_standard (z_g.getLastD [])).sum
  let log_g_base := log_normal_diag (z_g.headD []) z_mu (safeLogMat z_var)
  let log_g_z := List.zipWith (fun a b => a - b) log_g_base g_ldj
  if first_component ∨ (z_G = none ∧ G_ldj = none) then
    let entropy := log_g_z.sum
    let log_G_z : ℝ := 0
    let log_ratio : ℝ := 0
    let loss := recon_loss + log_G_z + beta * (entropy - log_p_zk)
    let batch_size := (x.length : ℝ)
    .ok (loss / batch_size, recon_loss / batch_size, log_G_z / batch_size,
      -1 * log_p_zk / batch_size, entropy / batch_size,
      log_ratio / batch_size)
  else
    match z_G, G_ldj with
    | some zG, some Gldj =>
      let log_G_base := log_normal_diag (zG.headD []) z_mu (safeLogMat z_var)
      let log_G_z :=
        (List.zipWith (fun a b => max (a - b) (-10)) log_G_base Gldj).sum
      let log_ratio := (log_g_z.map (fun g => log_G_z - g)).sum
      let entropy := (log_g_z.map (fun g => regularization_rate * g)).sum
      let loss := recon_loss + log_G_z + beta * (entropy - log_p_zk)
      let batch_size := (x.length : ℝ)
      .ok (loss / batch_size, recon_loss / batch_size, log_G_z / batch_size,
        -1 * log_p_zk / batch_size, entropy / batch_size,
        log_ratio / batch_size)
    | _, _ => .error (.typeError "NoneType object is not subscriptable")

/-- Log-sum-exp over a list, the normaliser of a softmax column. -/
def logsumexp (v : List ℝ) : ℝ := Real.log ((v.map Real.exp).sum)

/-- The per-position cross-entropy values of `cross_entropy` with
`reduction='none'`: for example `n` and feature position `f`, the negated
log-softmax of the logits column at the target class. -/
def cross_entropy_none (x_logit : List (List (List ℝ)))
    (target : List (List ℕ)) : List (List ℝ) :=
  (x_logit.zip target).map (fun nt =>
    nt.2.enum.map (fun ft =>
      logsumexp (nt.1.map (fun classRow => classRow.getD ft.1 0))
        - (nt.1.getD ft.2 []).getD ft.1 0))

/-- The `cross_entropy` helper of `optimization/loss.py` with
`reduction='sum'` (log-softmax over the class dimension followed by a summed
negative log-likelihood), as called by `multinomial_neg_elbo`. -/
def cross_entropy_sum (x_logit : List (List (List ℝ)))
    (target : List (List ℕ)) : ℝ :=
  ((cross_entropy_none x_logit target).map List.sum).sum

/-- One row of `x_logit.view(batch_size, num_classes, ...)`: the flat logits
row reinterpreted as `C` class rows of `F` features each, row-major. -/
def reshapeRow (C F : ℕ) (row : List ℝ) : List (List ℝ) :=
  (List.range C).map (fun c => (row.drop (c * F)).take F)

/-- The integer class labels `(x * (num_classes - 1)).long()`. -/
def toTarget (x : Mat) : List (List ℕ) :=
  x.map (fun r => r.map (fun v => (Int.floor (v * 255)).toNat))

/-- Configuration fields of the external settings object that the loss layer
reads. -/
structure Args where
  input_type : String
  input_size : List ℕ
  regularization_rate : ℝ

/-- `multinomial_neg_elbo` of `optimization/loss.py`: categorical
cross-entropy reconstruction over 256 levels plus the same KL term as the
binary ELBO, each returned term divided by the batch size. -/
def multinomial_neg_elbo (x_logit x z_mu z_var z_0 z_k : Mat) (ldj : List ℝ)
    (args : Args) (beta : ℝ) : ℝ × ℝ × ℝ :=
  let F := args.input_size.prod
  let logit5 := x_logit.map (reshapeRow 256 F)
  let target := toTarget x
  let ce := cross_entropy_sum logit5 target
  let log_p_zk := log_normal_standard z_k
  let log_q_z0 := log_normal_diag z_0 z_mu (safeLogMat z_var)
  let summed_logs := (List.zipWith (fun a b => a - b) log_q_z0 log_p_zk).sum
  let summed_ldj := ldj.sum
  let kl := summed_logs - summed_ldj
  let loss := ce + beta * kl
  let batch_size := (x.length : ℝ)
  (loss / batch_size, ce / batch_size, kl / batch_size)

/-- Modelled from the spec: calling a constructed `nn.CrossEntropyLoss`
module forwards its arguments to `forward(input, target)`, which accepts no
`reduction` keyword — passing one raises a `TypeError`. -/
def nnCrossEntropyLossCall (x_logit : List (List (List ℝ)))
    (target : List (List ℕ)) (kw_reduction : Option String) :
    Except PyError (List (List ℝ)) :=
  match kw_reduction with
  | some _ =>
    .error (.typeError "forward() got an unexpected keyword argument: reduction")
  | none => .ok (cross_entropy_none x_logit target)

/-- `multinomial_loss_array` of `optimization/loss.py`: the source calls the
constructed `nn.CrossEntropyLoss` module with an extra `reduction='none'`
keyword, so the cross-entropy line raises before any loss is built. -/
def multinomial_loss_array (x_logit x z_mu z_var z_0 z_k : Mat)
    (ldj : List ℝ) (args : Args) (beta : ℝ) : Except PyError (List ℝ) := do
  let F := args.input_size.prod
  let logit5 := x_logit.map (reshapeRow 256 F)
  let target := toTarget x
  let ce2 ← nnCrossEntropyLossCall logit5 target (some "none")
  let ce := ce2.map List.sum
  let log_p_zk := log_normal_standard z_k
  let log_q_z0 := log_normal_diag z_0 z_mu (safeLogMat z_var)
  let logs := List.zipWith (fun a b => a - b) log_q_z0 log_p_zk
  return List.zipWith (fun c r => c + beta * r) ce
    (List.zipWith (fun l d => l - d) logs ldj)

/-- `calculate_boosted_loss` of `optimization/loss.py`.  On an unrecognized
`input_type` the source evaluates `ValueError(...)` without raising it and
then returns the never-assigned locals, so Python raises an
`UnboundLocalError` for `loss` instead of the named `ValueError`. -/
def calculate_boosted_loss (x_recon x z_mu z_var : Mat) (z_g : List Mat)
    (g_ldj : List ℝ) (z_G : Option (List Mat)) (G_ldj : Option (List ℝ))
    (args : Args) (first_component : Bool) (beta : ℝ) :
    Except PyError (ℝ × ℝ × ℝ × ℝ × ℝ × ℝ) :=
  if args.input_type = "binary" then
    boosted_binary_neg_elbo x_recon x z_mu z_var z_g g_ldj z_G G_ldj
      args.regularization_rate first_component beta
  else
    .error (.unboundLocal "loss")

/-- `calculate_loss` of `optimization/loss.py`: dispatch on `input_type`,
raising a `ValueError` naming the offending value otherwise. -/
def calculate_loss (x_recon x z_mu z_var z_0 z_k : Mat) (ldj : List ℝ)
    (args : Args) (beta : ℝ) : Except PyError (ℝ × ℝ × ℝ) :=
  if args.input_type = "binary" then
    .ok (binary_neg_elbo x_recon x z_mu z_var z_0 z_k ldj beta)
  else if args.input_type = "multinomial" then
    .ok (multinomial_neg_elbo x_recon x z_mu z_var z_0 z_k ldj args beta)
  else
    .error (.valueError
      ("Invalid input type for calculate loss: " ++ args.input_type ++ "."))

/-- `calculate_loss_array` of `optimization/loss.py`: dispatch on
`input_type`, raising a `ValueError` naming the offending value otherwise. -/
def calculate_loss_array (x_recon x z_mu z_var z_0 z_k : Mat) (ldj : List ℝ)
    (args : Args) : Except PyError (List ℝ) :=
  if args.input_type = "binary" then
    .ok (binary_loss_array x_recon x z_mu z_var z_0 z_k ldj 1)
  else if args.input_type = "multinomial" then
    multinomial_loss_array x_recon x z_mu z_var z_0 z_k ldj args 1
  else
    .error (.valueError
      ("Invalid input type for calculate loss: " ++ args.input_type ++ "."))

/-- Arguments with an unrecognized input type, used to exercise the error
paths of the three dispatch functions. -/
def fooArgs : Args where
  input_type := "foo"
  input_size := [1, 1, 1]
  regularization_rate := 1

/-- Arguments selecting the multinomial loss. -/
def multArgs : Args where
  input_type := "multinomial"
  input_size := [1, 1, 1]
  regularization_rate := 1

/-- C8: `RealNVPFlow.__init__` instantiates, for every latent size, flip
offset and layer index, two function blocks mapping one half size to the
other and two mapping back, but `RealNVPVAE.__init__` builds all four blocks
with `in_dim = D // 2` and `out_dim = D - D // 2`, which for the odd latent
size `D = 3` is not a parity-correct assignment. -/
theorem blockDims_c8 :
    (∀ D fi k, parityBlockDimsOk D (realNVPFlowBlockDims D fi k)) ∧
    ¬ parityBlockDimsOk 3 (realNVPVAEBlockDims 3) := by
  constructor
  · intro D fi k
    by_cases h : (k + fi) % 2 > 0
    · right
      simp [realNVPFlowBlockDims, h]
    · left
      simp [realNVPFlowBlockDims, h]
  · decide

/-- C9: `RealNVPFlow.encode` returns `(z_K, z_mu, z_var, ldj, None)` where
`z_mu` and `z_var` are the two halves of the repeated zero buffer — `(N, D)`
tensors of zeros depending only on the batch size, never on the values of
`x` — and the final component is `None`. -/
theorem encode_prior_c9 (f : RealNVPFlow) (x : Mat) :
    (f.encode x).2.1 =
      List.replicate x.length (List.replicate f.z_size (0 : ℝ)) ∧
    (f.encode x).2.2.1 =
      List.replicate x.length (List.replicate f.z_size (0 : ℝ)) ∧
    (f.encode x).2.2.2.2 = none := by
  have hmin : min f.z_size (2 * f.z_size) = f.z_size := by omega
  have hsub : 2 * f.z_size - f.z_size = f.z_size := by omega
  refine ⟨?_, ?_, rfl⟩ <;>
    simp [RealNVPFlow.encode, RealNVPFlow.prior, List.take_replicate,
      List.drop_replicate, hmin, hsub]

/-- C3: on the unrecognized input type `"foo"`, `calculate_loss` and
`calculate_loss_array` raise a `ValueError` naming the offending value, but
`calculate_boosted_loss` builds its `ValueError` without raising it and then
fails with an `UnboundLocalError` on `loss` that does not name the value. -/
theorem dispatch_invalid_input_type_c3 :
    calculate_loss [] [] [] [] [] [] [] fooArgs 1 =
      .error (.valueError "Invalid input type for calculate loss: foo.") ∧
    calculate_loss_array [] [] [] [] [] [] [] fooArgs =
      .error (.valueError "Invalid input type for calculate loss: foo.") ∧
    calculate_boosted_loss [] [] [] [] [] [] none none fooArgs false 1 =
      .error (.unboundLocal "loss") := by
  refine ⟨?_, ?_, ?_⟩ <;> rfl

/-- C7: on the multinomial input type, `calculate_loss_array` does not return
a per-example loss vector: `multinomial_loss_array` passes a `reduction`
keyword to the constructed cross-entropy module's forward call, which raises
a `TypeError` before any loss is built. -/
theorem loss_array_multinomial_c7 :
    calculate_loss_array [[0]] [[0]] [[0]] [[1]] [[0]] [[0]] [0] multArgs =
      .error
        (.typeError "forward() got an unexpected keyword argument: reduction") := by
  rfl

/-- C5: on the first-component path — `first_component` true, or both
fixed-component arguments absent — `boosted_binary_neg_elbo` returns
`log_G_z = 0` and `log_ratio = 0`, and its entropy is the summed
new-component log-likelihood (divided, like every returned term, by the
batch size), with no `regularization_rate` factor. -/
theorem boosted_first_component_c5 (x_recon x z_mu z_var : Mat)
    (z_g : List Mat) (g_ldj : List ℝ) (z_G : Option (List Mat))
    (G_ldj : Option (List ℝ)) (rate beta : ℝ) :
    boosted_binary_neg_elbo x_recon x z_mu z_var z_g g_ldj z_G G_ldj rate
        true beta =
      Except.ok
        ((bce_sum x_recon x + beta *
            ((List.zipWith (fun a b => a - b)
                (log_normal_diag (z_g.headD []) z_mu (safeLogMat z_var))
                g_ldj).sum
              - (log_normal_standard (z_g.getLastD [])).sum))
            / (x.length : ℝ),
          bce_sum x_recon x / (x.length : ℝ),
          0,
          -((log_normal_standard (z_g.getLastD [])).sum / (x.length : ℝ)),
          (List.zipWith (fun a b => a - b)
              (log_normal_diag (z_g.headD []) z_mu (safeLogMat z_var))
              g_ldj).sum / (x.length : ℝ),
          0) ∧
    ∀ fc : Bool,
      boosted_binary_neg_elbo x_recon x z_mu z_var z_g g_ldj none none rate
          fc beta =
        Except.ok
          ((bce_sum x_recon x + beta *
              ((List.zipWith (fun a b => a - b)
                  (log_normal_diag (z_g.headD []) z_mu (safeLogMat z_var))
                  g_ldj).sum
                - (log_normal_standard (z_g.getLastD [])).sum))
              / (x.length : ℝ),
            bce_sum x_recon x / (x.length : ℝ),
            0,
            -((log_normal_standard (z_g.getLastD [])).sum / (x.length : ℝ)),
            (List.zipWith (fun a b => a - b)
                (log_normal_diag (z_g.headD []) z_mu (safeLogMat z_var))
                g_ldj).sum / (x.length : ℝ),
            0) := by
  constructor
  · simp [boosted_binary_neg_elbo]
    ring_nf
  · intro fc
    simp [boosted_binary_neg_elbo]
    ring_nf

/-- Multiplying each list element by a constant scales the sum. -/
lemma sum_map_mul_const (r : ℝ) (l : List ℝ) :
    (l.map (fun g => r * g)).sum = r * l.sum := by
  induction l with
  | nil => simp
  | cons a t ih => simp [ih]; ring

/-- Subtracting each list element from a constant sums to the list length
times the constant minus the sum. -/
lemma sum_map_const_sub (c : ℝ) (l : List ℝ) :
    (l.map (fun g => c - g)).sum = l.length * c - l.sum := by
  induction l with
  | nil => simp
  | cons a t ih =>
    simp [ih]
    ring

/-- C4: on the non-first-component path, `boosted_binary_neg_elbo` returns
`log_G_z` as the batch sum of the fixed components' base log-density minus
their `ldj`, each clamped below at `-10`; entropy as `regularization_rate`
times the summed new-component log-likelihood; a loss equal to
`reconstruction_error + log_G_z + beta * (entropy - log_p_zk)` with
`log_p_zk` the summed standard-normal log-density of the final latent; every
returned term divided by the batch size; and `log_p_zk` negated after that
division. -/
theorem boosted_nonfirst_c4 (x_recon x z_mu z_var : Mat) (z_g : List Mat)
    (g_ldj : List ℝ) (zG : List Mat) (Gldj : List ℝ) (rate beta : ℝ) :
    boosted_binary_neg_elbo x_recon x z_mu z_var z_g g_ldj (some zG)
        (some Gldj) rate false beta =
      Except.ok
        (bce_sum x_recon x / (x.length : ℝ)
            + (List.zipWith (fun a b => max (a - b) (-10))
                (log_normal_diag (zG.headD []) z_mu (safeLogMat z_var))
                Gldj).sum / (x.length : ℝ)
            + beta *
              (rate * (List.zipWith (fun a b => a - b)
                  (log_normal_diag (z_g.headD []) z_mu (safeLogMat z_var))
                  g_ldj).sum / (x.length : ℝ)
                - (log_normal_standard (z_g.getLastD [])).sum
                  / (x.length : ℝ)),
          bce_sum x_recon x / (x.length : ℝ),
          (List.zipWith (fun a b => max (a - b) (-10))
              (log_normal_diag (zG.headD []) z_mu (safeLogMat z_var))
              Gldj).sum / (x.length : ℝ),
          -((log_normal_standard (z_g.getLastD [])).sum / (x.length : ℝ)),
          rate * (List.zipWith (fun a b => a - b)
              (log_normal_diag (z_g.headD []) z_mu (safeLogMat z_var))
              g_ldj).sum / (x.length : ℝ),
          ((List.zipWith (fun a b => a - b)
              (log_normal_diag (z_g.headD []) z_mu (safeLogMat z_var))
              g_ldj).map
            (fun g =>
              (List.zipWith (fun a b => max (a - b) (-10))
                (log_normal_diag (zG.headD []) z_mu (safeLogMat z_var))
                Gldj).sum - g)).sum / (x.length : ℝ)) := by
  simp [boosted_binary_neg_elbo, sum_map_mul_const]
  refine ⟨?_, ?_⟩ <;> ring

/-- C10: on the non-first-component path, because the clamped
fixed-component log-likelihood `log_G_z` is reduced to a scalar before the
subtraction, the subtraction broadcasts that scalar against the per-example
vector `log_g_z`, so the returned diagnostic `log_ratio` equals
`(N * S_G - sum log_g_z) / N` where `S_G` is the already-summed clamped
fixed-component log-likelihood and `N` the batch size. -/
theorem boosted_log_ratio_broadcast_c10 (x_recon x z_mu z_var : Mat)
    (z_g : List Mat) (g_ldj : List ℝ) (zG : List Mat) (Gldj : List ℝ)
    (rate beta : ℝ)
    (h1 : (log_normal_diag (z_g.headD []) z_mu (safeLogMat z_var)).length
      = x.length)
    (h2 : g_ldj.length = x.length) :
    Except.map (fun t => t.2.2.2.2.2)
        (boosted_binary_neg_elbo x_recon x z_mu z_var z_g g_ldj (some zG)
          (some Gldj) rate false beta) =
      Except.ok
        (((x.length : ℝ) *
            (List.zipWith (fun a b => max (a - b) (-10))
              (log_normal_diag (zG.headD []) z_mu (safeLogMat z_var))
              Gldj).sum
          - (List.zipWith (fun a b => a - b)
              (log_normal_diag (z_g.headD []) z_mu (safeLogMat z_var))
              g_ldj).sum)
          / (x.length : ℝ)) := by
  simp at h1
  simp [boosted_binary_neg_elbo, Except.map, sum_map_const_sub, h1, h2]

/-- Witness for C10 at a concrete one-example batch. -/
theorem boosted_log_ratio_broadcast_c10_witness :
    (log_normal_diag (([[[(0 : ℝ)]]] : List Mat).headD []) [[0]]
        (safeLogMat [[0]])).length = ([[(0 : ℝ)]] : Mat).length ∧
    ([(0 : ℝ)] : List ℝ).length = ([[(0 : ℝ)]] : Mat).length ∧
    Except.map (fun t => t.2.2.2.2.2)
        (boosted_binary_neg_elbo [[0]] [[0]] [[0]] [[0]] [[[0]]] [0]
          (some [[[0]]]) (some [0]) 1 false 1) =
      Except.ok
        (((([[(0 : ℝ)]] : Mat).length : ℝ) *
            (List.zipWith (fun a b => max (a - b) (-10))
              (log_normal_diag (([[[(0 : ℝ)]]] : List Mat).headD []) [[0]]
                (safeLogMat [[0]])) [0]).sum
          - (List.zipWith (fun a b => a - b)
              (log_normal_diag (([[[(0 : ℝ)]]] : List Mat).headD []) [[0]]
                (safeLogMat [[0]])) [0]).sum)
          / (([[(0 : ℝ)]] : Mat).length : ℝ)) := by
  refine ⟨by simp [log_normal_diag, safeLogMat], by simp, ?_⟩
  exact boosted_log_ratio_broadcast_c10 [[0]] [[0]] [[0]] [[0]] [[[0]]] [0]
    [[[0]]] [0] 1 1 (by simp [log_normal_diag, safeLogMat]) (by simp)

/-- C1: the decode loop applies layer `k-1` with parity flag `k % 2`, the
opposite of the flag `(k-1) % 2` the encode loop used, so the inverse pass is
not the inverse of the forward pass: on the concrete one-layer flow `exFlow`
the round trip does not reconstruct `[0, 0]` and the two accumulated
`log_det_j` values sum to `1`, not zero. -/
theorem roundtrip_fails_c1 :
    exFlow.decode (exFlow.encodeZ [0, 0]).1 ≠ [0, 0] ∧
    (exFlow.encodeZ [0, 0]).2 +
      (exFlow.decodeZ (exFlow.encodeZ [0, 0]).1).2 ≠ 0 := by
  have he : exFlow.encodeZ [0, 0] = ([0, 1], 1) := by
    simp [RealNVPFlow.encodeZ, encodeGo, coupleForward, affineFwd, exFlow,
      exLayer]
  have hd : exFlow.decodeZ [0, 1] = ([-2, 1], 0) := by
    simp [RealNVPFlow.decodeZ, RealNVPFlow.num_flows, decodeRec,
      coupleInverse, affineInv, exFlow, exLayer]
  constructor
  · simp [RealNVPFlow.decode, he, hd]
  · simp [he, hd]

/-- C2 counterexample: on the concrete one-layer flow `exFlow`, the source's
`decode` (layer `k-1` with parity `k % 2`) differs from the claim's inverse
pass `decodeClaimSpec` (each layer with the same parity flag `k % 2` it used
in the forward pass) at the input `[0, 1]`. -/
theorem decode_parity_c2_counterexample :
    exFlow.decode [0, 1] ≠ (decodeClaimSpec exFlow [0, 1]).1 := by
  have hd : exFlow.decode [0, 1] = [-2, 1] := by
    simp [RealNVPFlow.decode, RealNVPFlow.decodeZ, RealNVPFlow.num_flows,
      decodeRec, coupleInverse, affineInv, exFlow, exLayer]
  have hc : (decodeClaimSpec exFlow [0, 1]).1 = [0, 0] := by
    simp [decodeClaimSpec, coupleInverse, affineInv, exFlow, exLayer]
  rw [hd, hc]
  simp

/-- The decode countdown loop is the fold over the reversed enumerated layer
list in which layer `k` is applied with parity flag `(k + 1) % 2`. -/
lemma decodeRec_eq_foldl (D : ℕ) (params : List CouplingLayer) :
    ∀ k, k ≤ params.length → ∀ (z : List ℝ) (ldj : ℝ),
      decodeRec D params k z ldj =
        (params.take k).enum.reverse.foldl
          (fun acc kL =>
            let r := coupleInverse D kL.2 ((kL.1 + 1) % 2) acc.1
            (r.1, acc.2 + r.2)) (z, ldj) := by
  intro k
  induction k with
  | zero => intro _ z ldj; simp [decodeRec]
  | succ k ih =>
    intro hk z ldj
    have hklt : k < params.length := by omega
    have hv : params[k]? = some (params.getD k default) := by
      simp [List.getElem?_eq_getElem hklt, List.getD_eq_getElem?_getD,
        List.getElem?_eq_getElem hklt]
    have htake : params.take (k + 1)
        = params.take k ++ [params.getD k default] := by
      rw [List.take_succ, hv]
      rfl
    have hlen : (params.take k).length = k := by
      simp [List.length_take]
      omega
    rw [show decodeRec D params (k + 1) z ldj = decodeRec D params k
        (coupleInverse D (params.getD k default) ((k + 1) % 2) z).1
        (ldj + (coupleInverse D (params.getD k default) ((k + 1) % 2) z).2)
      from rfl]
    rw [ih (Nat.le_of_lt hklt)]
    rw [htake, List.enum_append, hlen]
    simp [List.enumFrom]

/-- C2 amended: `decode` applies the coupling layers `K-1..0` in reverse
order, each with its own parameter set but with the parity flag `(k + 1) % 2`
— the opposite of the flag used in the forward pass — and returns only the
recovered `z_0`, discarding the accumulated `ldj`. -/
theorem decode_c2_amended (f : RealNVPFlow) (z : List ℝ) :
    f.decodeZ z = decodeAmendedSpec f z ∧
    f.decode z = (decodeAmendedSpec f z).1 := by
  have h := decodeRec_eq_foldl f.z_size f.flow_param f.flow_param.length
    (le_refl _) z 0
  rw [List.take_length] at h
  constructor
  · simp only [RealNVPFlow.decodeZ, RealNVPFlow.num_flows, decodeAmendedSpec]
    exact h
  · simp only [RealNVPFlow.decode, RealNVPFlow.decodeZ,
      RealNVPFlow.num_flows, decodeAmendedSpec]
    rw [h]

/-- Sums of elementwise differences split when the lengths agree. -/
lemma sum_zipWith_sub :
    ∀ (a b : List ℝ), a.length = b.length →
      (List.zipWith (fun x y => x - y) a b).sum = a.sum - b.sum := by
  intro a
  induction a with
  | nil =>
    intro b h
    cases b with
    | nil => simp
    | cons y ys => simp at h
  | cons x xs ih =>
    intro b h
    cases b with
    | nil => simp at h
    | cons y ys =>
      simp only [List.length_cons, Nat.add_right_cancel_iff] at h
      simp [ih ys h]
      ring

/-- Sums of elementwise affine combinations split when the lengths agree. -/
lemma sum_zipWith_add_mul (c : ℝ) :
    ∀ (a b : List ℝ), a.length = b.length →
      (List.zipWith (fun x y => x + c * y) a b).sum = a.sum + c * b.sum := by
  intro a
  induction a with
  | nil =>
    intro b h
    cases b with
    | nil => simp
    | cons y ys => simp at h
  | cons x xs ih =>
    intro b h
    cases b with
    | nil => simp at h
    | cons y ys =>
      simp only [List.length_cons, Nat.add_right_cancel_iff] at h
      simp [ih ys h]
      ring

/-- Zipping-with is mapping the binary function over the zipped pairs. -/
lemma zipWith_eq_map_zip {α β γ : Type _} (f : α → β → γ) :
    ∀ (a : List α) (b : List β),
      List.zipWith f a b = (a.zip b).map (fun p => f p.1 p.2) := by
  intro a
  induction a with
  | nil => intro b; simp
  | cons x xs ih =>
    intro b
    cases b with
    | nil => simp
    | cons y ys => simp [ih]

/-- Negating each element negates the sum. -/
lemma sum_map_neg {α : Type _} (g : α → ℝ) (l : List α) :
    (l.map (fun p => -g p)).sum = -(l.map g).sum := by
  induction l with
  | nil => simp
  | cons a t ih => simp [ih]; ring

/-- When every probability lies inside the clamping margins, the clamped
Bernoulli row log-likelihood is the unclamped one. -/
lemma log_bernoulli_row_unclamped (xr rr : List ℝ)
    (h : ∀ q ∈ xr.zip rr, eps ≤ q.2 ∧ q.2 ≤ 1 - eps) :
    log_bernoulli_row xr rr =
      ((xr.zip rr).map (fun q => q.1 * Real.log q.2
        + (1 - q.1) * Real.log (1 - q.2))).sum := by
  unfold log_bernoulli_row
  congr 1
  apply List.map_congr_left
  intro q hq
  have hcl : clampProb q.2 = q.2 := by
    obtain ⟨h1, h2⟩ := h q hq
    unfold clampProb
    rw [max_eq_left h1, min_eq_left h2]
  rw [hcl]

/-- When every probability lies inside the clamping margins, the summed
per-example Bernoulli reconstruction terms agree with the summed binary
cross-entropy. -/
lemma sum_bce_eq (x_recon x : Mat)
    (h : ∀ pr ∈ x.zip x_recon, ∀ q ∈ pr.1.zip pr.2,
      eps ≤ q.2 ∧ q.2 ≤ 1 - eps) :
    (List.zipWith (fun xr rr => -log_bernoulli_row xr rr) x x_recon).sum
      = bce_sum x_recon x := by
  unfold bce_sum
  rw [zipWith_eq_map_zip]
  have hmaps : (x.zip x_recon).map (fun p => -log_bernoulli_row p.1 p.2)
      = (x.zip x_recon).map (fun rows => -((rows.1.zip rows.2).map
          (fun q => q.1 * Real.log q.2
            + (1 - q.1) * Real.log (1 - q.2))).sum) :=
    List.map_congr_left (fun p hp => by
      rw [log_bernoulli_row_unclamped p.1 p.2 (h p hp)])
  rw [hmaps]
  exact sum_map_neg
    (fun rows => ((rows.1.zip rows.2).map
      (fun q => q.1 * Real.log q.2
        + (1 - q.1) * Real.log (1 - q.2))).sum) (x.zip x_recon)

/-- C6 amended: summed over the batch dimension, `binary_loss_array` equals
the batch size times the loss returned by `binary_neg_elbo` (which divides
by the batch size before returning), for identical inputs of consistent
shape whose reconstruction probabilities lie inside the clamping margins. -/
theorem binary_losses_c6_amended (x_recon x z_mu z_var z_0 z_k : Mat)
    (ldj : List ℝ) (beta : ℝ)
    (hn : 0 < x.length)
    (hx : x_recon.length = x.length)
    (hq : (log_normal_diag z_0 z_mu (safeLogMat z_var)).length = x.length)
    (hp : (log_normal_standard z_k).length = x.length)
    (hl : ldj.length = x.length)
    (hcl : ∀ pr ∈ x.zip x_recon, ∀ q ∈ pr.1.zip pr.2,
      eps ≤ q.2 ∧ q.2 ≤ 1 - eps) :
    (binary_loss_array x_recon x z_mu z_var z_0 z_k ldj beta).sum =
      (x.length : ℝ)
        * (binary_neg_elbo x_recon x z_mu z_var z_0 z_k ldj beta).1 := by
  have hN : ((x.length : ℝ)) ≠ 0 := Nat.cast_ne_zero.mpr hn.ne'
  have hbce_len :
      (List.zipWith (fun xr rr => -log_bernoulli_row xr rr) x x_recon).length
        = x.length := by
    simp [List.length_zipWith, hx]
  have hlogs_len :
      (List.zipWith (fun a b => a - b)
        (log_normal_diag z_0 z_mu (safeLogMat z_var))
        (log_normal_standard z_k)).length = x.length := by
    simp [List.length_zipWith, hq, hp]
  have hlr_len :
      (List.zipWith (fun l d => l - d)
        (List.zipWith (fun a b => a - b)
          (log_normal_diag z_0 z_mu (safeLogMat z_var))
          (log_normal_standard z_k)) ldj).length = x.length := by
    simp [List.length_zipWith, hq, hp, hl]
  have harr : (binary_loss_array x_recon x z_mu z_var z_0 z_k ldj beta).sum
      = bce_sum x_recon x + beta *
          ((List.zipWith (fun a b => a - b)
            (log_normal_diag z_0 z_mu (safeLogMat z_var))
            (log_normal_standard z_k)).sum - ldj.sum) := by
    simp only [binary_loss_array]
    rw [sum_zipWith_add_mul beta _ _ (by rw [hbce_len, hlr_len])]
    rw [sum_zipWith_sub _ _ (by rw [hlogs_len, hl])]
    rw [sum_bce_eq x_recon x hcl]
  have helbo : (binary_neg_elbo x_recon x z_mu z_var z_0 z_k ldj beta).1
      = (bce_sum x_recon x + beta *
          ((List.zipWith (fun a b => a - b)
            (log_normal_diag z_0 z_mu (safeLogMat z_var))
            (log_normal_standard z_k)).sum - ldj.sum)) / (x.length : ℝ) :=
    rfl
  rw [harr, helbo]
  field_simp

/-- Witness for the amended C6 at a concrete one-example batch. -/
theorem binary_losses_c6_amended_witness :
    0 < ([[(0 : ℝ)]] : Mat).length ∧
    (binary_loss_array [[(1 : ℝ)/2]] [[0]] [[0]] [[1]] [[0]] [[0]] [0]
      1).sum =
      ((([[(0 : ℝ)]] : Mat).length : ℝ)
        * (binary_neg_elbo [[(1 : ℝ)/2]] [[0]] [[0]] [[1]] [[0]] [[0]] [0]
            1).1) := by
  refine ⟨by simp, ?_⟩
  exact binary_losses_c6_amended [[(1 : ℝ)/2]] [[0]] [[0]] [[1]] [[0]] [[0]]
    [0] 1 (by simp) (by simp)
    (by simp [log_normal_diag, safeLogMat])
    (by simp [log_normal_standard])
    (by simp)
    (by
      intro pr hpr q hq
      simp at hpr
      subst hpr
      simp at hq
      subst hq
      norm_num [eps])

/-- C6 counterexample: at a concrete two-example batch, the summed
per-example losses of `binary_loss_array` differ from the loss returned by
`binary_neg_elbo`, which has already been divided by the batch size. -/
theorem binary_losses_c6_counterexample :
    (binary_loss_array [[(1 : ℝ)/2], [(1 : ℝ)/2]] [[0], [0]] [[0], [0]]
        [[1], [1]] [[0], [0]] [[0], [0]] [0, 0] 1).sum ≠
      (binary_neg_elbo [[(1 : ℝ)/2], [(1 : ℝ)/2]] [[0], [0]] [[0], [0]]
        [[1], [1]] [[0], [0]] [[0], [0]] [0, 0] 1).1 := by
  have hmax : ((2 : ℝ)⁻¹ ⊔ (10000000 : ℝ)⁻¹) = 2⁻¹ := max_eq_left (by norm_num)
  have hmin : ((2 : ℝ)⁻¹ ⊓ (1 - (10000000 : ℝ)⁻¹)) = 2⁻¹ :=
    min_eq_left (by norm_num)
  have hhalf : (1 : ℝ) - 2⁻¹ = 2⁻¹ := by norm_num
  simp [binary_loss_array, binary_neg_elbo, log_normal_diag,
    log_normal_standard, log_normal_diag_row, log_normal_standard_row,
    log_bernoulli_row, bce_sum, safeLogMat, safe_log, clampProb, eps,
    hmax, hmin, hhalf, Real.log_inv]
  intro hEq
  have hL : Real.log (1 + (10000000 : ℝ)⁻¹) = 2 * Real.log 2 := by linarith
  have h4 : Real.log (1 + (10000000 : ℝ)⁻¹) = Real.log 4 := by
    rw [hL, show (4 : ℝ) = 2 ^ 2 by norm_num, Real.log_pow]
    push_cast
    ring
  have hex := congrArg Real.exp h4
  rw [Real.exp_log (by norm_num), Real.exp_log (by norm_num)] at hex
  norm_num at hex

/-- The inverse elementwise affine coupling undoes the forward one when the
scale and shift vectors cover the transformed half. -/
lemma affineInv_affineFwd :
    ∀ (z s t : List ℝ), s.length = z.length → t.length = z.length →
      affineInv (affineFwd z s t) s t = z := by
  intro z
  induction z with
  | nil =>
    intro s t hs ht
    simp only [List.length_nil, List.length_eq_zero] at hs ht
    subst hs
    subst ht
    simp [affineFwd, affineInv]
  | cons a zt ih =>
    intro s t hs ht
    cases s with
    | nil => simp at hs
    | cons s1 st =>
      cases t with
      | nil => simp at ht
      | cons t1 tt =>
        simp only [List.length_cons, Nat.add_right_cancel_iff] at hs ht
        have ihr := ih st tt hs ht
        simp only [affineFwd, affineInv, List.zip_cons_cons,
          List.zipWith_cons_cons] at ihr ⊢
        rw [ihr, add_sub_cancel_right,
          mul_div_cancel_right₀ a (Real.exp_ne_zero s1)]

/-- A coupling step is inverted by the inverse step WITH THE SAME parity
flag, and their log-determinant contributions cancel exactly; the decode
loop of the source, however, passes the opposite flag (see C1 and C2). -/
lemma coupleInverse_coupleForward (D : ℕ) (L : CouplingLayer) (p : ℕ)
    (z : List ℝ) (hz : z.length = D)
    (hsA : (L.sA (z.take (D / 2))).length = D - D / 2)
    (htA : (L.tA (z.take (D / 2))).length = D - D / 2)
    (hsB : (L.sB (z.drop (D / 2))).length = D / 2)
    (htB : (L.tB (z.drop (D / 2))).length = D / 2) :
    (coupleInverse D L p (coupleForward D L p z).1).1 = z ∧
    (coupleForward D L p z).2
      + (coupleInverse D L p (coupleForward D L p z).1).2 = 0 := by
  have hA : (z.take (D / 2)).length = D / 2 := by
    simp [List.length_take, hz]
    omega
  have hB : (z.drop (D / 2)).length = D - D / 2 := by
    simp [List.length_drop, hz]
  by_cases hp : p % 2 = 0
  · have hfwd : coupleForward D L p z
        = (z.take (D / 2) ++ affineFwd (z.drop (D / 2))
            (L.sA (z.take (D / 2))) (L.tA (z.take (D / 2))),
          (L.sA (z.take (D / 2))).sum) := by
      simp [coupleForward, hp]
    have htakeApp : (z.take (D / 2) ++ affineFwd (z.drop (D / 2))
        (L.sA (z.take (D / 2))) (L.tA (z.take (D / 2)))).take (D / 2)
        = z.take (D / 2) := List.take_left' hA
    have hdropApp : (z.take (D / 2) ++ affineFwd (z.drop (D / 2))
        (L.sA (z.take (D / 2))) (L.tA (z.take (D / 2)))).drop (D / 2)
        = affineFwd (z.drop (D / 2))
            (L.sA (z.take (D / 2))) (L.tA (z.take (D / 2))) :=
      List.drop_left' hA
    rw [hfwd]
    simp only [coupleInverse]
    rw [if_pos hp]
    simp only [htakeApp, hdropApp]
    constructor
    · rw [affineInv_affineFwd _ _ _ (by rw [hsA, hB]) (by rw [htA, hB])]
      exact List.take_append_drop _ _
    · ring
  · have hfwd : coupleForward D L p z
        = (affineFwd (z.take (D / 2))
            (L.sB (z.drop (D / 2))) (L.tB (z.drop (D / 2)))
            ++ z.drop (D / 2),
          (L.sB (z.drop (D / 2))).sum) := by
      simp [coupleForward, hp]
    have hlenF : (affineFwd (z.take (D / 2))
        (L.sB (z.drop (D / 2))) (L.tB (z.drop (D / 2)))).length = D / 2 := by
      simp [affineFwd, List.length_zipWith, hA, hsB, htB]
    have htakeApp : (affineFwd (z.take (D / 2))
        (L.sB (z.drop (D / 2))) (L.tB (z.drop (D / 2)))
          ++ z.drop (D / 2)).take (D / 2)
        = affineFwd (z.take (D / 2))
            (L.sB (z.drop (D / 2))) (L.tB (z.drop (D / 2))) :=
      List.take_left' hlenF
    have hdropApp : (affineFwd (z.take (D / 2))
        (L.sB (z.drop (D / 2))) (L.tB (z.drop (D / 2)))
          ++ z.drop (D / 2)).drop (D / 2)
        = z.drop (D / 2) := List.drop_left' hlenF
    rw [hfwd]
    simp only [coupleInverse]
    rw [if_neg hp]
    simp only [htakeApp, hdropApp]
    constructor
    · rw [affineInv_affineFwd _ _ _ (by rw [hsB, hA]) (by rw [htB, hA])]
      exact List.take_append_drop _ _
    · ring

/-- On the binary input type, `calculate_loss_array` returns the
per-example loss vector, one value per batch row when the shapes agree. -/
theorem calculate_loss_array_binary_length (x_recon x z_mu z_var z_0 z_k :
    Mat) (ldj : List ℝ) (args : Args)
    (hb : args.input_type = "binary")
    (hx : x_recon.length = x.length)
    (hq : (log_normal_diag z_0 z_mu (safeLogMat z_var)).length = x.length)
    (hp : (log_normal_standard z_k).length = x.length)
    (hl : ldj.length = x.length) :
    calculate_loss_array x_recon x z_mu z_var z_0 z_k ldj args =
      Except.ok (binary_loss_array x_recon x z_mu z_var z_0 z_k ldj 1) ∧
    (binary_loss_array x_recon x z_mu z_var z_0 z_k ldj 1).length
      = x.length := by
  constructor
  · simp [calculate_loss_array, hb]
  · simp [binary_loss_array, List.length_zipWith, hx, hq, hp, hl]

end

end GradientBoostedFlows
